import Mathlib

/-!
Verification of the negotiation engine (`negotiation_engine.py`,
`api_server.py`, `persona_factory.py`) of the ai-debate repository.

The orchestrator `run_negotiation` is embedded as a fuel-indexed interpreter.
External effects are parameters:
* the wall clock is a stream `clock : Nat → Int` of successive `time.time()`
  readings (`clock 0` is the start timestamp, later indices are later reads);
* each chat session is a function from its own call number and the message
  sent to an outcome (`SendResult.ok text` for a normal reply, `.err msg` for
  a raised exception);
* `fuel` bounds the number of iterations of the `while` loop; exhausted fuel
  returns the state accumulated so far, so every terminating run of the
  Python loop is the interpreter at a sufficiently large fuel.

Besides the transcript the interpreter records the observable trace of the
run: every deadline check (with the clock value read) and every
`send_message` call (with session number, input, and outcome), and whether an
exception escaped the `try` block.  The public `run_negotiation` applies the
`except` handler (append an error record) to that result.
-/

set_option linter.unusedVariables false

/-- Outcome of one remote call: a normal reply or a raised exception. -/
inductive SendResult where
  | ok (text : String)
  | err (msg : String)
deriving DecidableEq, Repr

/-- One entry of the transcript list: either a turn dict
`{"turn": n, "speaker": s, "message": m}` or an error dict `{"error": e}`. -/
inductive Record where
  | turn (turn : Nat) (speaker : String) (message : String)
  | error (msg : String)
deriving DecidableEq, Repr

/-- Whether a record is an error record. -/
def Record.isErr : Record → Bool
  | .error _ => true
  | .turn _ _ _ => false

/-- Observable events of a run: a deadline check reading the clock, or a
`send_message` call on session 1 or session 2. -/
inductive Event where
  | check (now : Int)
  | call (session : Nat) (input : String) (result : SendResult)
deriving DecidableEq, Repr

/-- Whether an event is a `send_message` call. -/
def Event.isCall : Event → Bool
  | .call _ _ _ => true
  | .check _ => false

/-- Whether an event is a successful `send_message` call. -/
def Event.isOk : Event → Bool
  | .call _ _ (.ok _) => true
  | _ => false

/-- A chat session: its `n`-th `send_message` call on a given input either
returns reply text or raises. -/
structure Session where
  send_message : Nat → String → SendResult

/-- Body of the `while` loop of `run_negotiation` (source lines 51-85).
Arguments after `fuel`: index of the next clock reading, number of
`send_message` calls already made on session 1 and on session 2, the current
value of `turn_counter`, and `current_message`.  Returns the records appended
from here on, the events from here on, and the exception escaping the `try`
block, if any. -/
def negotiation_loop (clock : Nat → Int) (model1_session model2_session : Session)
    (model1_name model2_name : String) (t0 duration_seconds : Int) :
    Nat → Nat → Nat → Nat → Nat → String → List Record × List Event × Option String
  | 0, _, _, _, _, _ => ([], [], none)
  | fuel + 1, ci, n1, n2, tc, cur =>
    let now := clock ci
    if now - t0 < duration_seconds then
      match model2_session.send_message n2 cur with
      | .err e => ([], [.check now, .call 2 cur (.err e)], some e)
      | .ok r =>
        let now2 := clock (ci + 1)
        if duration_seconds ≤ now2 - t0 then
          ([.turn tc model2_name r], [.check now, .call 2 cur (.ok r), .check now2], none)
        else
          match model1_session.send_message n1 r with
          | .err e =>
              ([.turn tc model2_name r],
               [.check now, .call 2 cur (.ok r), .check now2, .call 1 r (.err e)], some e)
          | .ok r2 =>
              let rest := negotiation_loop clock model1_session model2_session
                model1_name model2_name t0 duration_seconds fuel
                (ci + 2) (n1 + 1) (n2 + 1) (tc + 2) r2
              (.turn tc model2_name r :: .turn (tc + 1) model1_name r2 :: rest.1,
               .check now :: .call 2 cur (.ok r) :: .check now2 :: .call 1 r (.ok r2) :: rest.2.1,
               rest.2.2)
    else ([], [.check now], none)

/-- The `try` block of `run_negotiation` (source lines 33-85): the opening
statement of model 1 followed by the main loop.  Returns the transcript built
inside the `try` block, the event trace, and the exception escaping to the
handler, if any. -/
def run_negotiation_full (clock : Nat → Int) (model1_session model2_session : Session)
    (model1_name model2_name initial_prompt : String) (duration_seconds : Int)
    (fuel : Nat) : List Record × List Event × Option String :=
  let t0 := clock 0
  match model1_session.send_message 0 initial_prompt with
  | .err e => ([], [.call 1 initial_prompt (.err e)], some e)
  | .ok r =>
    let rest := negotiation_loop clock model1_session model2_session
      model1_name model2_name t0 duration_seconds fuel 1 1 0 1 r
    (.turn 0 model1_name r :: rest.1, .call 1 initial_prompt (.ok r) :: rest.2.1, rest.2.2)

/-- The function `run_negotiation` (source lines 14-94): run the `try` block;
on an escaped exception the `except` handler appends `{"error": str(e)}`;
the `finally` block returns the transcript.  The parameters `api_key_1` and
`api_key_2` only feed the global `genai.configure` calls, which do not affect
the transcript. -/
def run_negotiation (clock : Nat → Int) (model1_session model2_session : Session)
    (model1_name model2_name initial_prompt : String) (duration_seconds : Int)
    (api_key_1 api_key_2 : String) (fuel : Nat) : List Record :=
  match run_negotiation_full clock model1_session model2_session
      model1_name model2_name initial_prompt duration_seconds fuel with
  | (t, _, some e) => t ++ [.error e]
  | (t, _, none) => t

/-- The whole of `run_negotiation` viewed from its caller: an `Except.error`
value would mean an exception propagated past the function boundary.  The
`except Exception` handler catches everything the `try` block can raise and
the handler itself only appends to the list, so the result is built from
`run_negotiation_full` with the handler applied. -/
def run_negotiation_exc (clock : Nat → Int) (model1_session model2_session : Session)
    (model1_name model2_name initial_prompt : String) (duration_seconds : Int)
    (api_key_1 api_key_2 : String) (fuel : Nat) : Except String (List Record) :=
  match run_negotiation_full clock model1_session model2_session
      model1_name model2_name initial_prompt duration_seconds fuel with
  | (t, _, some e) => Except.ok (t ++ [Record.error e])
  | (t, _, none) => Except.ok t

/-- Single quote character, used by the summarization prompt template. -/
def squote : String := String.singleton (Char.ofNat 39)

/-- The list comprehension of `get_negotiation_summary` (source line 71):
format each transcript item as `"speaker: message"`, skipping items that
carry an `error` key. -/
def conversation_log_lines : List Record → List String
  | [] => []
  | .turn _ sp m :: rest => (sp ++ ": " ++ m) :: conversation_log_lines rest
  | .error _ :: rest => conversation_log_lines rest

/-- The `conversation_log` string: the non-error lines joined by newlines. -/
def conversation_log (transcript : List Record) : String :=
  String.intercalate "\n" (conversation_log_lines transcript)

/-- The summarization prompt f-string of `get_negotiation_summary`
(source lines 73-85). -/
def summary_prompt (topic log : String) : String :=
  "\n        Based on the following negotiation transcript about " ++ squote ++ topic ++ squote ++
  ", please provide a brief, neutral summary of the outcome.\n\n        Answer these questions:\n        1. What was the final position of each party?\n        2. Was a clear agreement reached? If so, what were the terms?\n        3. If no agreement was reached, what were the main points of contention?\n\n        Transcript:\n        ---\n        " ++
  log ++ "\n        ---\n        "

/-- Python truthiness test `if not API_KEY_1` on the credential slot:
true when the key is absent (`None`) or the empty string. -/
def api_key_missing : Option String → Bool
  | none => true
  | some s => s.isEmpty

/-- The helper `get_negotiation_summary` (source lines 55-89).  The remote
summarizer is a parameter `summarizer` (outcome of `generate_content_async`
on a given prompt).  Besides the returned string, the model records the list
of prompts actually sent to the remote summarizer, so that "no remote call is
made" is observable. -/
def get_negotiation_summary (summarizer : String → SendResult) (api_key_1 : Option String)
    (transcript : List Record) (topic : String) : String × List String :=
  if transcript.isEmpty then
    ("The negotiation did not start or an error occurred.", [])
  else if api_key_missing api_key_1 then
    ("Summarization failed: API key not configured.", [])
  else
    let prompt := summary_prompt topic (conversation_log transcript)
    match summarizer prompt with
    | .ok t => (t, [prompt])
    | .err e => ("Could not generate summary: " ++ e, [prompt])

/-- The function `create_system_instruction` of `persona_factory.py`
(source lines 3-27): the f-string template instantiated with the seven
profile fields. -/
def create_system_instruction (name profession background mood behavior objective
    strengths : String) : String :=
  "\n    You are " ++ name ++ " (" ++ background ++ "), a " ++ profession ++
  ".\n\n    Your current mood is " ++ mood ++ " and your behavior should be " ++ behavior ++
  ".\n    Your primary objective in this negotiation is: " ++ objective ++
  ".\n    To achieve this, you must emphasize your key strengths: " ++ strengths ++
  ".\n\n    You are negotiating against another party. Use your defined personality and tactics\n    to cleverly steer the conversation towards your objective. Maintain a professional\n    and diplomatic tone appropriate for your role, but be firm.\n\n    **Crucially, you must keep your responses concise and impactful, limited to 2-3 Line.**\n    "

/-- A string contains another as a contiguous substring. -/
def containsStr (s sub : String) : Prop :=
  ∃ p q, s = p ++ sub ++ q

/-- Parameters of `def run_negotiation(...)` in `negotiation_engine.py`
(source lines 14-23); all are required (none has a default value). -/
def run_negotiation_required_params : List String :=
  ["model1_session", "model2_session", "model1_name", "model2_name",
   "initial_prompt", "duration_seconds", "api_key_1", "api_key_2"]

/-- Keyword arguments of the call
`negotiation_engine.run_negotiation(...)` in `api_server.py`
(source lines 139-146). -/
def start_negotiation_call_kwargs : List String :=
  ["model1_session", "model2_session", "model1_name", "model2_name",
   "initial_prompt", "duration_seconds"]

/-- Python call binding for a call made purely with keyword arguments, on a
function whose parameters are all required and positional-or-keyword: the
call binds (rather than raising `TypeError`) exactly when every required
parameter is supplied and no unexpected keyword is passed. -/
def call_binds (required provided : List String) : Bool :=
  required.all (fun p => provided.contains p) && provided.all (fun p => required.contains p)

/-- Linear test clock: the n-th reading is n seconds after the start. -/
def clock_lin : Nat → Int := fun n => (n : Int)

/-- Echoing test session: every call replies with the input, prefixed. -/
def session_echo : Session := ⟨fun _ m => .ok ("ack:" ++ m)⟩

/-- Test session whose every call raises. -/
def session_fail : Session := ⟨fun _ _ => .err "boom"⟩

/-- Test session whose second and later calls raise. -/
def session_fail_late : Session := ⟨fun n _ => if 1 ≤ n then .err "late" else .ok "r0"⟩

/-- Relation between the records, the event trace and the escaped exception
of a run fragment: the records are exactly as many as the successful calls
of the trace and all of them are turn records; when no exception escapes,
every call of the trace succeeded; when exception `e` escapes, the calls of
the trace are successful calls followed by exactly one failing call, which
raised `e`. -/
def CallsInv (res : List Record × List Event × Option String) : Prop :=
  res.1.length = res.2.1.countP (fun ev => ev.isOk) ∧
  (res.2.2 = none → ∀ ev ∈ res.2.1, ev.isCall = true → ev.isOk = true) ∧
  (∀ e, res.2.2 = some e →
    ∃ pre s inp, res.2.1.filter (fun ev => ev.isCall) =
      pre ++ [Event.call s inp (SendResult.err e)] ∧ ∀ ev ∈ pre, ev.isOk = true) ∧
  (∀ r ∈ res.1, r.isErr = false)

/-- Deadline discipline of an event trace (relative to start `t0` and
duration `dur`): the trace opens with a deadline check if it is non-empty;
every call is immediately preceded by a deadline check that read a clock
value strictly within the budget; and a deadline check that read an expired
clock value is the last event of the trace. -/
def EventsInv (t0 dur : Int) (ev : List Event) : Prop :=
  (∀ x, ev[0]? = some x → ∃ v, x = Event.check v) ∧
  (∀ j s inp res, ev[j + 1]? = some (Event.call s inp res) →
    ∃ v, ev[j]? = some (Event.check v) ∧ v - t0 < dur) ∧
  (∀ j v, ev[j]? = some (Event.check v) → dur ≤ v - t0 → ev.length = j + 1)

/-- Shape of the records appended by the main loop: the j-th record appended
is a successful turn record with turn index `tc + j`, spoken by model 2 at
even offsets and model 1 at odd offsets. -/
theorem negotiation_loop_records (clock : Nat → Int) (s1 s2 : Session)
    (m1 m2 : String) (t0 dur : Int) :
    ∀ (fuel ci k1 k2 tc : Nat) (cur : String) (j : Nat),
      j < (negotiation_loop clock s1 s2 m1 m2 t0 dur fuel ci k1 k2 tc cur).1.length →
      ∃ msg, (negotiation_loop clock s1 s2 m1 m2 t0 dur fuel ci k1 k2 tc cur).1[j]? =
        some (Record.turn (tc + j) (if j % 2 = 0 then m2 else m1) msg) := by
  intro fuel
  induction fuel with
  | zero =>
    intro ci k1 k2 tc cur j h
    simp [negotiation_loop] at h
  | succ fuel ih =>
    intro ci k1 k2 tc cur j h
    simp only [negotiation_loop] at h ⊢
    by_cases hg : clock ci - t0 < dur
    · simp only [if_pos hg] at h ⊢
      cases h2 : s2.send_message k2 cur with
      | err e => simp [h2] at h
      | ok r =>
        simp only [h2] at h ⊢
        by_cases hg2 : dur ≤ clock (ci + 1) - t0
        · simp only [if_pos hg2] at h ⊢
          simp only [List.length_singleton] at h
          have hj : j = 0 := by omega
          subst hj
          exact ⟨r, by simp⟩
        · simp only [if_neg hg2] at h ⊢
          cases h1 : s1.send_message k1 r with
          | err e => simp only [h1, List.length_singleton] at h ⊢
                     have hj : j = 0 := by omega
                     subst hj
                     exact ⟨r, by simp⟩
          | ok r2 =>
            simp only [h1] at h ⊢
            match j with
            | 0 => exact ⟨r, by simp⟩
            | 1 => exact ⟨r2, by simp⟩
            | j + 2 =>
              simp only [List.length_cons] at h
              obtain ⟨msg, hm⟩ :=
                ih (ci + 2) (k1 + 1) (k2 + 1) (tc + 2) r2 j (by omega)
              refine ⟨msg, ?_⟩
              rw [List.getElem?_cons_succ, List.getElem?_cons_succ, hm]
              have h3 : tc + 2 + j = tc + (j + 2) := by omega
              rw [h3, Nat.add_mod_right]
    · simp [if_neg hg] at h

/-- Shape of the transcript built inside the `try` block: the record at
position j is a successful turn record whose turn index is exactly j, spoken
by model 1 at even positions and model 2 at odd positions. -/
theorem run_negotiation_full_records (clock : Nat → Int) (s1 s2 : Session)
    (m1 m2 ip : String) (dur : Int) (fuel : Nat) :
    ∀ j, j < (run_negotiation_full clock s1 s2 m1 m2 ip dur fuel).1.length →
      ∃ msg, (run_negotiation_full clock s1 s2 m1 m2 ip dur fuel).1[j]? =
        some (Record.turn j (if j % 2 = 0 then m1 else m2) msg) := by
  intro j h
  simp only [run_negotiation_full] at h ⊢
  cases h0 : s1.send_message 0 ip with
  | err e => simp [h0] at h
  | ok r =>
    simp only [h0] at h ⊢
    match j with
    | 0 => exact ⟨r, by simp⟩
    | j + 1 =>
      simp only [List.length_cons] at h
      obtain ⟨msg, hm⟩ :=
        negotiation_loop_records clock s1 s2 m1 m2 (clock 0) dur fuel 1 1 0 1 r j (by omega)
      refine ⟨msg, ?_⟩
      rw [List.getElem?_cons_succ, hm]
      have h3 : 1 + j = j + 1 := by omega
      rw [h3]
      rcases Nat.mod_two_eq_zero_or_one j with hp | hp
      · have hp1 : (j + 1) % 2 = 1 := by omega
        simp [hp, hp1]
      · have hp1 : (j + 1) % 2 = 0 := by omega
        simp [hp, hp1]

/-- Claim C3 (invariants): for every run of run_negotiation whose returned
transcript is non-empty and contains no error record, the speakers of
consecutive records strictly alternate between the two labels, the first
record being spoken by speaker 1; nothing constrains which speaker the
sequence ends on. -/
theorem run_negotiation_alternation (clock : Nat → Int) (s1 s2 : Session)
    (m1 m2 ip : String) (dur : Int) (k1 k2 : String) (fuel : Nat)
    (hne : (run_negotiation clock s1 s2 m1 m2 ip dur k1 k2 fuel).all
      (fun r => !r.isErr) = true)
    (hnonempty : run_negotiation clock s1 s2 m1 m2 ip dur k1 k2 fuel ≠ []) :
    ∀ j, j < (run_negotiation clock s1 s2 m1 m2 ip dur k1 k2 fuel).length →
      ∃ msg, (run_negotiation clock s1 s2 m1 m2 ip dur k1 k2 fuel)[j]? =
        some (Record.turn j (if j % 2 = 0 then m1 else m2) msg) := by
  intro j h
  rcases hfull : run_negotiation_full clock s1 s2 m1 m2 ip dur fuel with ⟨t, ev, exc⟩
  have hrecords := run_negotiation_full_records clock s1 s2 m1 m2 ip dur fuel j
  rw [hfull] at hrecords
  cases exc with
  | some e =>
    exfalso
    simp only [run_negotiation, hfull] at hne
    simp [List.all_append, Record.isErr] at hne
  | none =>
    have hres : run_negotiation clock s1 s2 m1 m2 ip dur k1 k2 fuel = t := by
      simp [run_negotiation, hfull]
    rw [hres] at h ⊢
    exact hrecords h

/-- Claim C10 (invariants): in every run of run_negotiation, the turn index
stored in a successful turn record equals the zero-based position of that record
in the returned transcript. -/
theorem run_negotiation_turn_index_position (clock : Nat → Int) (s1 s2 : Session)
    (m1 m2 ip : String) (dur : Int) (k1 k2 : String) (fuel : Nat)
    (j k : Nat) (sp msg : String)
    (h : (run_negotiation clock s1 s2 m1 m2 ip dur k1 k2 fuel)[j]? =
      some (Record.turn k sp msg)) : k = j := by
  rcases hfull : run_negotiation_full clock s1 s2 m1 m2 ip dur fuel with ⟨t, ev, exc⟩
  have hrecords := run_negotiation_full_records clock s1 s2 m1 m2 ip dur fuel j
  rw [hfull] at hrecords
  cases exc with
  | none =>
    have hres : run_negotiation clock s1 s2 m1 m2 ip dur k1 k2 fuel = t := by
      simp [run_negotiation, hfull]
    rw [hres] at h
    have hj : j < t.length := (List.getElem?_eq_some.mp h).1
    obtain ⟨msg', hm⟩ := hrecords hj
    rw [h] at hm
    simp only [Option.some.injEq, Record.turn.injEq] at hm
    exact hm.1
  | some e =>
    have hres : run_negotiation clock s1 s2 m1 m2 ip dur k1 k2 fuel =
        t ++ [Record.error e] := by
      simp [run_negotiation, hfull]
    rw [hres] at h
    by_cases hj : j < t.length
    · rw [List.getElem?_append_left hj] at h
      obtain ⟨msg', hm⟩ := hrecords hj
      rw [h] at hm
      simp only [Option.some.injEq, Record.turn.injEq] at hm
      exact hm.1
    · rw [List.getElem?_append_right (by omega)] at h
      rcases hd : j - t.length with _ | m
      · rw [hd] at h
        simp at h
      · rw [hd] at h
        simp at h

/-- Calls discipline of the main loop: see `CallsInv`. -/
theorem negotiation_loop_calls (clock : Nat → Int) (s1 s2 : Session)
    (m1 m2 : String) (t0 dur : Int) :
    ∀ (fuel ci k1 k2 tc : Nat) (cur : String),
      CallsInv (negotiation_loop clock s1 s2 m1 m2 t0 dur fuel ci k1 k2 tc cur) := by
  intro fuel
  induction fuel with
  | zero =>
    intro ci k1 k2 tc cur
    simp [negotiation_loop, CallsInv]
  | succ fuel ih =>
    intro ci k1 k2 tc cur
    simp only [negotiation_loop]
    by_cases hg : clock ci - t0 < dur
    · simp only [if_pos hg]
      cases h2 : s2.send_message k2 cur with
      | err e =>
        refine ⟨by simp [List.countP_cons, Event.isOk], by simp, ?_, by simp⟩
        intro e' he'
        simp only [Option.some.injEq] at he'
        subst he'
        exact ⟨[], 2, cur, rfl, by simp⟩
      | ok r =>
        by_cases hg2 : dur ≤ clock (ci + 1) - t0
        · simp only [if_pos hg2]
          refine ⟨by simp [List.countP_cons, Event.isOk], ?_, by simp,
            by simp [Record.isErr]⟩
          intro _ ev hev hcall
          simp only [List.mem_cons, List.not_mem_nil, or_false] at hev
          rcases hev with h | h | h <;> subst h <;>
            simp [Event.isCall, Event.isOk] at hcall ⊢
        · simp only [if_neg hg2]
          cases h1 : s1.send_message k1 r with
          | err e =>
            refine ⟨by simp [List.countP_cons, Event.isOk], by simp, ?_,
              by simp [Record.isErr]⟩
            intro e' he'
            simp only [Option.some.injEq] at he'
            subst he'
            refine ⟨[Event.call 2 cur (SendResult.ok r)], 1, r, rfl,
              by simp [Event.isOk]⟩
          | ok r2 =>
            obtain ⟨ihc, ihnone, ihsome, ihrec⟩ :=
              ih (ci + 2) (k1 + 1) (k2 + 1) (tc + 2) r2
            refine ⟨?_, ?_, ?_, ?_⟩
            · have e1 : ∀ x, Event.isOk (Event.check x) = false := fun _ => rfl
              have e2 : ∀ a b c, Event.isOk (Event.call a b (SendResult.ok c)) = true :=
                fun _ _ _ => rfl
              simp only [List.length_cons, List.countP_cons, e1, e2, ihc]
              simp
            · intro hnone ev hev hcall
              simp only [List.mem_cons] at hev
              rcases hev with h | h | h | h | h
              · subst h; simp [Event.isCall] at hcall
              · subst h; simp [Event.isOk]
              · subst h; simp [Event.isCall] at hcall
              · subst h; simp [Event.isOk]
              · exact ihnone hnone ev h hcall
            · intro e' he'
              obtain ⟨pre, s, inp, hcalls, hpre⟩ := ihsome e' he'
              refine ⟨Event.call 2 cur (SendResult.ok r) ::
                Event.call 1 r (SendResult.ok r2) :: pre, s, inp, ?_, ?_⟩
              · have hfil : List.filter (fun ev => ev.isCall)
                    (Event.check (clock ci) :: Event.call 2 cur (SendResult.ok r) ::
                      Event.check (clock (ci + 1)) :: Event.call 1 r (SendResult.ok r2) ::
                      (negotiation_loop clock s1 s2 m1 m2 t0 dur fuel
                        (ci + 2) (k1 + 1) (k2 + 1) (tc + 2) r2).2.1) =
                    Event.call 2 cur (SendResult.ok r) ::
                      Event.call 1 r (SendResult.ok r2) ::
                      List.filter (fun ev => ev.isCall)
                        (negotiation_loop clock s1 s2 m1 m2 t0 dur fuel
                          (ci + 2) (k1 + 1) (k2 + 1) (tc + 2) r2).2.1 := rfl
                rw [hfil, hcalls]
                simp
              · intro ev hev
                simp only [List.mem_cons] at hev
                rcases hev with h | h | h
                · subst h; simp [Event.isOk]
                · subst h; simp [Event.isOk]
                · exact hpre ev h
            · intro rec hrec
              simp only [List.mem_cons] at hrec
              rcases hrec with h | h | h
              · subst h; simp [Record.isErr]
              · subst h; simp [Record.isErr]
              · exact ihrec rec h
    · simp only [if_neg hg]
      refine ⟨by simp [List.countP_cons, Event.isOk], ?_, by simp, by simp⟩
      intro _ ev hev hcall
      simp only [List.mem_singleton] at hev
      subst hev
      simp [Event.isCall] at hcall

/-- Calls discipline of the whole `try` block: see `CallsInv`. -/
theorem run_negotiation_full_calls (clock : Nat → Int) (s1 s2 : Session)
    (m1 m2 ip : String) (dur : Int) (fuel : Nat) :
    CallsInv (run_negotiation_full clock s1 s2 m1 m2 ip dur fuel) := by
  simp only [run_negotiation_full]
  cases h0 : s1.send_message 0 ip with
  | err e =>
    refine ⟨by simp [List.countP_cons, Event.isOk], by simp, ?_, by simp⟩
    intro e' he'
    simp only [Option.some.injEq] at he'
    subst he'
    exact ⟨[], 1, ip, rfl, by simp⟩
  | ok r =>
    obtain ⟨ihc, ihnone, ihsome, ihrec⟩ :=
      negotiation_loop_calls clock s1 s2 m1 m2 (clock 0) dur fuel 1 1 0 1 r
    refine ⟨?_, ?_, ?_, ?_⟩
    · have e2 : ∀ a b c, Event.isOk (Event.call a b (SendResult.ok c)) = true :=
        fun _ _ _ => rfl
      simp only [List.length_cons, List.countP_cons, e2, ihc]
      simp
    · intro hnone ev hev hcall
      simp only [List.mem_cons] at hev
      rcases hev with h | h
      · subst h; simp [Event.isOk]
      · exact ihnone hnone ev h hcall
    · intro e' he'
      obtain ⟨pre, s, inp, hcalls, hpre⟩ := ihsome e' he'
      refine ⟨Event.call 1 ip (SendResult.ok r) :: pre, s, inp, ?_, ?_⟩
      · have hfil : List.filter (fun ev => ev.isCall)
            (Event.call 1 ip (SendResult.ok r) ::
              (negotiation_loop clock s1 s2 m1 m2 (clock 0) dur fuel 1 1 0 1 r).2.1) =
            Event.call 1 ip (SendResult.ok r) ::
              List.filter (fun ev => ev.isCall)
                (negotiation_loop clock s1 s2 m1 m2 (clock 0) dur fuel 1 1 0 1 r).2.1 := rfl
        rw [hfil, hcalls]
        simp
      · intro ev hev
        simp only [List.mem_cons] at hev
        rcases hev with h | h
        · subst h; simp [Event.isOk]
        · exact hpre ev h
    · intro rec hrec
      simp only [List.mem_cons] at hrec
      rcases hrec with h | h
      · subst h; simp [Record.isErr]
      · exact ihrec rec h

/-- Pointwise: a successful call is in particular a call. -/
theorem isOk_and_isCall (a : Event) : (Event.isOk a && Event.isCall a) = Event.isOk a := by
  cases a with
  | check now => rfl
  | call s i res => cases res <;> rfl

/-- Claim C4 (error_handling): if the (i+1)-st send call of a run of
run_negotiation raises (position i among the calls of the trace), then the
failing call is the last call issued, the try-block transcript consists of
exactly i successful turn records, and the returned transcript is those i
records followed by exactly one error record carrying the raised message. -/
theorem run_negotiation_fail_fast (clock : Nat → Int) (s1 s2 : Session)
    (m1 m2 ip : String) (dur : Int) (k1 k2 : String) (fuel : Nat)
    (i s : Nat) (inp e : String)
    (h : ((run_negotiation_full clock s1 s2 m1 m2 ip dur fuel).2.1.filter
        (fun ev => ev.isCall))[i]? = some (Event.call s inp (SendResult.err e))) :
    ((run_negotiation_full clock s1 s2 m1 m2 ip dur fuel).2.1.filter
        (fun ev => ev.isCall)).length = i + 1 ∧
    (run_negotiation_full clock s1 s2 m1 m2 ip dur fuel).1.length = i ∧
    (∀ r ∈ (run_negotiation_full clock s1 s2 m1 m2 ip dur fuel).1, r.isErr = false) ∧
    run_negotiation clock s1 s2 m1 m2 ip dur k1 k2 fuel =
      (run_negotiation_full clock s1 s2 m1 m2 ip dur fuel).1 ++ [Record.error e] := by
  have hinv := run_negotiation_full_calls clock s1 s2 m1 m2 ip dur fuel
  rcases hfull : run_negotiation_full clock s1 s2 m1 m2 ip dur fuel with ⟨t, ev, exc⟩
  rw [hfull] at hinv h
  obtain ⟨hc, hnone, hsome, hrec⟩ := hinv
  dsimp only at hc hnone hsome hrec h ⊢
  cases exc with
  | none =>
    exfalso
    obtain ⟨hlt, hel⟩ := List.getElem?_eq_some.mp h
    have hmem : Event.call s inp (SendResult.err e) ∈
        ev.filter (fun ev => ev.isCall) := hel ▸ List.getElem_mem hlt
    obtain ⟨hin, hcall⟩ := List.mem_filter.mp hmem
    have := hnone rfl _ hin hcall
    simp [Event.isOk] at this
  | some e' =>
    obtain ⟨pre, s', inp', hcalls, hpre⟩ := hsome e' rfl
    rw [hcalls] at h
    by_cases hi : i < pre.length
    · exfalso
      rw [List.getElem?_append_left hi] at h
      obtain ⟨hlt, hel⟩ := List.getElem?_eq_some.mp h
      have hmem : Event.call s inp (SendResult.err e) ∈ pre := hel ▸ List.getElem_mem hlt
      have := hpre _ hmem
      simp [Event.isOk] at this
    · have hlen : i < pre.length + 1 := by
        have := (List.getElem?_eq_some.mp h).1
        simpa using this
      have hieq : i = pre.length := by omega
      subst hieq
      rw [List.getElem?_append_right (by omega)] at h
      simp only [Nat.sub_self, List.getElem?_cons_zero, Option.some.injEq,
        Event.call.injEq, SendResult.err.injEq] at h
      obtain ⟨hs, hinp, he⟩ := h
      subst hs
      subst hinp
      subst he
      have hcount : List.countP (fun ev => ev.isOk)
          (List.filter (fun ev => ev.isCall) ev) =
          List.countP (fun ev => ev.isOk) ev := by
        rw [List.countP_filter]
        have hfeq : (fun a => Event.isOk a && Event.isCall a) =
            fun a => Event.isOk a := funext isOk_and_isCall
        rw [hfeq]
      have hpl : List.countP (fun ev => ev.isOk) pre = pre.length :=
        List.countP_eq_length.mpr hpre
      refine ⟨?_, ?_, hrec, ?_⟩
      · rw [hcalls]
        simp
      · rw [hc, ← hcount, hcalls, List.countP_append, hpl]
        simp [Event.isOk]
      · simp [run_negotiation, hfull]

/-- Deadline discipline of the event trace of the main loop: see `EventsInv`. -/
theorem negotiation_loop_events (clock : Nat → Int) (s1 s2 : Session)
    (m1 m2 : String) (t0 dur : Int) :
    ∀ (fuel ci k1 k2 tc : Nat) (cur : String),
      EventsInv t0 dur (negotiation_loop clock s1 s2 m1 m2 t0 dur fuel ci k1 k2 tc cur).2.1 := by
  intro fuel
  induction fuel with
  | zero =>
    intro ci k1 k2 tc cur
    refine ⟨?_, ?_, ?_⟩ <;> intros <;> simp_all [negotiation_loop]
  | succ fuel ih =>
    intro ci k1 k2 tc cur
    simp only [negotiation_loop]
    by_cases hg : clock ci - t0 < dur
    · simp only [if_pos hg]
      cases h2 : s2.send_message k2 cur with
      | err e =>
        refine ⟨?_, ?_, ?_⟩
        · intro x hx
          simp only [List.getElem?_cons_zero, Option.some.injEq] at hx
          exact ⟨clock ci, hx.symm⟩
        · intro j s inp res hj
          match j with
          | 0 => exact ⟨clock ci, by simp, hg⟩
          | j + 1 =>
            rw [List.getElem?_cons_succ, List.getElem?_cons_succ] at hj
            simp at hj
        · intro j v hj hv
          match j with
          | 0 =>
            simp only [List.getElem?_cons_zero, Option.some.injEq, Event.check.injEq] at hj
            subst hj
            omega
          | 1 =>
            rw [List.getElem?_cons_succ] at hj
            simp at hj
          | j + 2 =>
            rw [List.getElem?_cons_succ, List.getElem?_cons_succ] at hj
            simp at hj
      | ok r =>
        by_cases hg2 : dur ≤ clock (ci + 1) - t0
        · simp only [if_pos hg2]
          refine ⟨?_, ?_, ?_⟩
          · intro x hx
            simp only [List.getElem?_cons_zero, Option.some.injEq] at hx
            exact ⟨clock ci, hx.symm⟩
          · intro j s inp res hj
            match j with
            | 0 => exact ⟨clock ci, by simp, hg⟩
            | 1 =>
              rw [List.getElem?_cons_succ, List.getElem?_cons_succ] at hj
              simp at hj
            | j + 2 =>
              rw [List.getElem?_cons_succ, List.getElem?_cons_succ,
                List.getElem?_cons_succ] at hj
              simp at hj
          · intro j v hj hv
            match j with
            | 0 =>
              simp only [List.getElem?_cons_zero, Option.some.injEq, Event.check.injEq] at hj
              subst hj
              omega
            | 1 =>
              rw [List.getElem?_cons_succ] at hj
              simp at hj
            | 2 => simp
            | j + 3 =>
              rw [List.getElem?_cons_succ, List.getElem?_cons_succ,
                List.getElem?_cons_succ] at hj
              simp at hj
        · simp only [if_neg hg2]
          cases h1 : s1.send_message k1 r with
          | err e =>
            refine ⟨?_, ?_, ?_⟩
            · intro x hx
              simp only [List.getElem?_cons_zero, Option.some.injEq] at hx
              exact ⟨clock ci, hx.symm⟩
            · intro j s inp res hj
              match j with
              | 0 => exact ⟨clock ci, by simp, hg⟩
              | 1 =>
                rw [List.getElem?_cons_succ, List.getElem?_cons_succ] at hj
                simp at hj
              | 2 => exact ⟨clock (ci + 1), by simp, by omega⟩
              | j + 3 =>
                rw [List.getElem?_cons_succ, List.getElem?_cons_succ,
                  List.getElem?_cons_succ, List.getElem?_cons_succ] at hj
                simp at hj
            · intro j v hj hv
              match j with
              | 0 =>
                simp only [List.getElem?_cons_zero, Option.some.injEq,
                  Event.check.injEq] at hj
                subst hj
                omega
              | 1 =>
                rw [List.getElem?_cons_succ] at hj
                simp at hj
              | 2 =>
                rw [List.getElem?_cons_succ, List.getElem?_cons_succ] at hj
                simp only [List.getElem?_cons_zero, Option.some.injEq,
                  Event.check.injEq] at hj
                subst hj
                omega
              | 3 =>
                rw [List.getElem?_cons_succ, List.getElem?_cons_succ,
                  List.getElem?_cons_succ] at hj
                simp at hj
              | j + 4 =>
                rw [List.getElem?_cons_succ, List.getElem?_cons_succ,
                  List.getElem?_cons_succ, List.getElem?_cons_succ] at hj
                simp at hj
          | ok r2 =>
            obtain ⟨ih1, ih2, ih3⟩ := ih (ci + 2) (k1 + 1) (k2 + 1) (tc + 2) r2
            refine ⟨?_, ?_, ?_⟩
            · intro x hx
              simp only [List.getElem?_cons_zero, Option.some.injEq] at hx
              exact ⟨clock ci, hx.symm⟩
            · intro j s inp res hj
              match j with
              | 0 => exact ⟨clock ci, by simp, hg⟩
              | 1 =>
                rw [List.getElem?_cons_succ, List.getElem?_cons_succ] at hj
                simp at hj
              | 2 => exact ⟨clock (ci + 1), by simp, by omega⟩
              | 3 =>
                rw [List.getElem?_cons_succ, List.getElem?_cons_succ,
                  List.getElem?_cons_succ, List.getElem?_cons_succ] at hj
                obtain ⟨v, hx⟩ := ih1 _ hj
                simp at hx
              | j + 4 =>
                rw [show j + 4 + 1 = j + 1 + 1 + 1 + 1 + 1 from rfl,
                  List.getElem?_cons_succ, List.getElem?_cons_succ,
                  List.getElem?_cons_succ, List.getElem?_cons_succ] at hj
                obtain ⟨v, hv, hb⟩ := ih2 j s inp res hj
                refine ⟨v, ?_, hb⟩
                rw [show j + 4 = j + 1 + 1 + 1 + 1 from rfl,
                  List.getElem?_cons_succ, List.getElem?_cons_succ,
                  List.getElem?_cons_succ, List.getElem?_cons_succ]
                exact hv
            · intro j v hj hv
              match j with
              | 0 =>
                simp only [List.getElem?_cons_zero, Option.some.injEq,
                  Event.check.injEq] at hj
                subst hj
                omega
              | 1 =>
                rw [List.getElem?_cons_succ] at hj
                simp at hj
              | 2 =>
                rw [List.getElem?_cons_succ, List.getElem?_cons_succ] at hj
                simp only [List.getElem?_cons_zero, Option.some.injEq,
                  Event.check.injEq] at hj
                subst hj
                omega
              | 3 =>
                rw [List.getElem?_cons_succ, List.getElem?_cons_succ,
                  List.getElem?_cons_succ] at hj
                simp at hj
              | j + 4 =>
                rw [show j + 4 = j + 1 + 1 + 1 + 1 from rfl,
                  List.getElem?_cons_succ, List.getElem?_cons_succ,
                  List.getElem?_cons_succ, List.getElem?_cons_succ] at hj
                have := ih3 j v hj hv
                simp only [List.length_cons]
                omega
    · simp only [if_neg hg]
      refine ⟨?_, ?_, ?_⟩
      · intro x hx
        simp only [List.getElem?_cons_zero, Option.some.injEq] at hx
        exact ⟨clock ci, hx.symm⟩
      · intro j s inp res hj
        rw [List.getElem?_cons_succ] at hj
        simp at hj
      · intro j v hj hv
        match j with
        | 0 => simp
        | j + 1 =>
          rw [List.getElem?_cons_succ] at hj
          simp at hj

/-- Deadline discipline of the whole run: every send call after the opening
one is immediately preceded by a deadline check that was within the budget,
and a deadline check that read an expired clock value is the last event. -/
theorem run_negotiation_full_events (clock : Nat → Int) (s1 s2 : Session)
    (m1 m2 ip : String) (dur : Int) (fuel : Nat) :
    (∀ j s inp res,
      (run_negotiation_full clock s1 s2 m1 m2 ip dur fuel).2.1[j + 1]? =
        some (Event.call s inp res) →
      ∃ v, (run_negotiation_full clock s1 s2 m1 m2 ip dur fuel).2.1[j]? =
        some (Event.check v) ∧ v - clock 0 < dur) ∧
    (∀ j v,
      (run_negotiation_full clock s1 s2 m1 m2 ip dur fuel).2.1[j]? =
        some (Event.check v) → dur ≤ v - clock 0 →
      (run_negotiation_full clock s1 s2 m1 m2 ip dur fuel).2.1.length = j + 1) := by
  simp only [run_negotiation_full]
  cases h0 : s1.send_message 0 ip with
  | err e =>
    refine ⟨?_, ?_⟩
    · intro j s inp res hj
      rw [List.getElem?_cons_succ] at hj
      simp at hj
    · intro j v hj hv
      match j with
      | 0 => simp at hj
      | j + 1 =>
        rw [List.getElem?_cons_succ] at hj
        simp at hj
  | ok r =>
    obtain ⟨li, lii, liii⟩ :=
      negotiation_loop_events clock s1 s2 m1 m2 (clock 0) dur fuel 1 1 0 1 r
    refine ⟨?_, ?_⟩
    · intro j s inp res hj
      rw [List.getElem?_cons_succ] at hj
      match j with
      | 0 =>
        obtain ⟨v, hx⟩ := li _ hj
        simp at hx
      | j + 1 =>
        obtain ⟨v, hv, hb⟩ := lii j s inp res hj
        refine ⟨v, ?_, hb⟩
        rw [List.getElem?_cons_succ]
        exact hv
    · intro j v hj hv
      match j with
      | 0 => simp at hj
      | j + 1 =>
        rw [List.getElem?_cons_succ] at hj
        have := liii j v hj hv
        simp only [List.length_cons]
        omega

/-- Claim C7 (temporal): in every run of run_negotiation with positive
duration, the deadline is only ever consulted between send calls: each
non-opening send call is immediately preceded by a deadline check that read
a clock value strictly within the budget, and after a deadline check that
read an expired clock value no further send call is started (the trace
ends at that check). -/
theorem run_negotiation_deadline_respect (clock : Nat → Int) (s1 s2 : Session)
    (m1 m2 ip : String) (dur : Int) (fuel : Nat) (hdur : 0 < dur) :
    (∀ (j s : Nat) (inp : String) (res : SendResult),
      (run_negotiation_full clock s1 s2 m1 m2 ip dur fuel).2.1[j + 1]? =
        some (Event.call s inp res) →
      ∃ v, (run_negotiation_full clock s1 s2 m1 m2 ip dur fuel).2.1[j]? =
        some (Event.check v) ∧ v - clock 0 < dur) ∧
    (∀ (j : Nat) (v : Int) (i s : Nat) (inp : String) (res : SendResult),
      (run_negotiation_full clock s1 s2 m1 m2 ip dur fuel).2.1[j]? =
        some (Event.check v) → dur ≤ v - clock 0 → j < i →
      (run_negotiation_full clock s1 s2 m1 m2 ip dur fuel).2.1[i]? ≠
        some (Event.call s inp res)) := by
  obtain ⟨ha, hb⟩ := run_negotiation_full_events clock s1 s2 m1 m2 ip dur fuel
  refine ⟨ha, ?_⟩
  intro j v i s inp res hj hv hji
  have hlen := hb j v hj hv
  have hnone : (run_negotiation_full clock s1 s2 m1 m2 ip dur fuel).2.1[i]? = none := by
    apply List.getElem?_eq_none
    omega
  rw [hnone]
  simp

/-- Claim C1 (error_handling): for every pair of sessions, every pair of
labels, every initial prompt and every duration, run_negotiation returns the
transcript and never propagates an exception past its boundary: the caller
always observes `Except.ok`, whichever session calls fail. -/
theorem run_negotiation_never_raises (clock : Nat → Int) (s1 s2 : Session)
    (m1 m2 ip : String) (dur : Int) (k1 k2 : String) (fuel : Nat) :
    run_negotiation_exc clock s1 s2 m1 m2 ip dur k1 k2 fuel =
      Except.ok (run_negotiation clock s1 s2 m1 m2 ip dur k1 k2 fuel) := by
  rcases hfull : run_negotiation_full clock s1 s2 m1 m2 ip dur fuel with ⟨t, ev, exc⟩
  cases exc <;> simp [run_negotiation_exc, run_negotiation, hfull]

/-- Claim C6 (functional_correctness): for every non-positive duration,
run_negotiation attempts only the opening turn and returns exactly one
record: the opening turn record with index 0 when the opening send succeeds,
or an error record when it raises — never zero records.  The clock readings
taken during the run are assumed not to precede the start timestamp. -/
theorem run_negotiation_nonpositive_duration (clock : Nat → Int) (s1 s2 : Session)
    (m1 m2 ip : String) (dur : Int) (k1 k2 : String) (fuel : Nat)
    (hdur : dur ≤ 0) (hmono : ∀ n, clock 0 ≤ clock n) :
    run_negotiation clock s1 s2 m1 m2 ip dur k1 k2 fuel =
      match s1.send_message 0 ip with
      | SendResult.ok r => [Record.turn 0 m1 r]
      | SendResult.err e => [Record.error e] := by
  cases h0 : s1.send_message 0 ip with
  | err e => simp [run_negotiation, run_negotiation_full, h0]
  | ok r =>
    cases fuel with
    | zero => simp [run_negotiation, run_negotiation_full, h0, negotiation_loop]
    | succ fuel =>
      have hng : ¬(clock 1 - clock 0 < dur) := by
        have := hmono 1
        omega
      simp [run_negotiation, run_negotiation_full, h0, negotiation_loop, hng]

/-- Claim C8 (error_handling): for every topic (and any summarizer and any
credential state), the summary generator applied to an empty transcript
returns the fixed sentence and issues no remote call. -/
theorem summarize_empty_transcript (summarizer : String → SendResult)
    (api_key_1 : Option String) (topic : String) :
    get_negotiation_summary summarizer api_key_1 [] topic =
      ("The negotiation did not start or an error occurred.", []) := rfl

/-- Counterexample to claim C5: on the transcript whose only record is an
error record, with a configured key and a summarizer answering "SUMMARY",
the summary generator does not return the fixed "did not start or an error
occurred" message. -/
theorem summarize_error_only_counterexample :
    ¬ ((get_negotiation_summary (fun _ => SendResult.ok "SUMMARY") (some "key")
        [Record.error "boom"] "topic").1 =
      "The negotiation did not start or an error occurred.") := by decide

/-- Claim C5 as amended: on a transcript whose only record is an error
record, the error record is excluded from the digest (the conversation log
is empty), but the fixed message is not returned: with a configured key the
remote summarization call is still issued, on the prompt built from the
empty digest, and its reply (or the failure fallback) is returned. -/
theorem summarize_error_only_amended (summarizer : String → SendResult)
    (api_key_1 : Option String) (e topic : String)
    (hkey : api_key_missing api_key_1 = false) :
    conversation_log [Record.error e] = "" ∧
    get_negotiation_summary summarizer api_key_1 [Record.error e] topic =
      (match summarizer (summary_prompt topic "") with
       | SendResult.ok t => (t, [summary_prompt topic ""])
       | SendResult.err m =>
           ("Could not generate summary: " ++ m, [summary_prompt topic ""])) := by
  have hlog : conversation_log [Record.error e] = "" := rfl
  refine ⟨hlog, ?_⟩
  simp only [get_negotiation_summary, List.isEmpty_cons, hkey, hlog,
    Bool.false_eq_true, if_false]

/-- Claim C2 evaluated on the code: the call made by the request handler
passes exactly the six keyword arguments, but `run_negotiation` declares
`api_key_1` and `api_key_2` as further required parameters, so the call does
not bind (it raises `TypeError` instead of producing a transcript). -/
theorem run_negotiation_call_arity_mismatch :
    call_binds run_negotiation_required_params start_negotiation_call_kwargs = false ∧
    "api_key_1" ∈ run_negotiation_required_params ∧
    "api_key_1" ∉ start_negotiation_call_kwargs ∧
    "api_key_2" ∈ run_negotiation_required_params ∧
    "api_key_2" ∉ start_negotiation_call_kwargs := by decide

/-- Containment is preserved by appending on the left. -/
theorem containsStr_append_left (a s u : String) (h : containsStr s u) :
    containsStr (a ++ s) u := by
  obtain ⟨p, q, hpq⟩ := h
  subst hpq
  exact ⟨a ++ p, q, by simp [String.append_assoc]⟩

/-- Containment is preserved by appending on the right. -/
theorem containsStr_append_right (s b u : String) (h : containsStr s u) :
    containsStr (s ++ b) u := by
  obtain ⟨p, q, hpq⟩ := h
  subst hpq
  exact ⟨p, q ++ b, by simp [String.append_assoc]⟩

/-- A string contains its own suffix. -/
theorem containsStr_suffix (a u : String) : containsStr (a ++ u) u :=
  ⟨a, "", by simp [String.append_empty]⟩

/-- Claim C9 (functional_correctness): for every profile whose fields are
all non-empty, the instruction returned by create_system_instruction
contains each of the seven profile fields verbatim. -/
theorem create_system_instruction_contains_fields
    (name profession background mood behavior objective strengths : String)
    (hname : name ≠ "") (hprofession : profession ≠ "")
    (hbackground : background ≠ "") (hmood : mood ≠ "")
    (hbehavior : behavior ≠ "") (hobjective : objective ≠ "")
    (hstrengths : strengths ≠ "") :
    containsStr (create_system_instruction name profession background mood behavior
      objective strengths) name ∧
    containsStr (create_system_instruction name profession background mood behavior
      objective strengths) profession ∧
    containsStr (create_system_instruction name profession background mood behavior
      objective strengths) background ∧
    containsStr (create_system_instruction name profession background mood behavior
      objective strengths) mood ∧
    containsStr (create_system_instruction name profession background mood behavior
      objective strengths) behavior ∧
    containsStr (create_system_instruction name profession background mood behavior
      objective strengths) objective ∧
    containsStr (create_system_instruction name profession background mood behavior
      objective strengths) strengths := by
  unfold create_system_instruction
  refine ⟨?_, ?_, ?_, ?_, ?_, ?_, ?_⟩ <;>
    · repeat
        first
          | exact containsStr_suffix _ _
          | apply containsStr_append_right

/-- Witness for C9: the theorem applied to one concrete profile. -/
theorem create_system_instruction_contains_fields_witness :
    (("Alice" : String) ≠ "" ∧ ("Negotiator" : String) ≠ "" ∧
     ("from Mars" : String) ≠ "" ∧ ("calm" : String) ≠ "" ∧
     ("firm" : String) ≠ "" ∧ ("win" : String) ≠ "" ∧
     ("logic" : String) ≠ "") ∧
    (containsStr (create_system_instruction "Alice" "Negotiator" "from Mars" "calm"
        "firm" "win" "logic") "Alice" ∧
     containsStr (create_system_instruction "Alice" "Negotiator" "from Mars" "calm"
        "firm" "win" "logic") "Negotiator" ∧
     containsStr (create_system_instruction "Alice" "Negotiator" "from Mars" "calm"
        "firm" "win" "logic") "from Mars" ∧
     containsStr (create_system_instruction "Alice" "Negotiator" "from Mars" "calm"
        "firm" "win" "logic") "calm" ∧
     containsStr (create_system_instruction "Alice" "Negotiator" "from Mars" "calm"
        "firm" "win" "logic") "firm" ∧
     containsStr (create_system_instruction "Alice" "Negotiator" "from Mars" "calm"
        "firm" "win" "logic") "win" ∧
     containsStr (create_system_instruction "Alice" "Negotiator" "from Mars" "calm"
        "firm" "win" "logic") "logic") :=
  ⟨by decide, create_system_instruction_contains_fields "Alice" "Negotiator" "from Mars"
    "calm" "firm" "win" "logic" (by decide) (by decide) (by decide) (by decide)
    (by decide) (by decide) (by decide)⟩

/-- Witness for C3: the theorem applied to an echoing run with duration 2
on the linear clock (the end-to-end scenario of the spec). -/
theorem run_negotiation_alternation_witness :
    ((run_negotiation clock_lin session_echo session_echo "A" "B" "hi" 2 "k1" "k2" 10).all
      (fun r => !r.isErr) = true) ∧
    (run_negotiation clock_lin session_echo session_echo "A" "B" "hi" 2 "k1" "k2" 10 ≠ []) ∧
    (∀ j, j < (run_negotiation clock_lin session_echo session_echo
        "A" "B" "hi" 2 "k1" "k2" 10).length →
      ∃ msg, (run_negotiation clock_lin session_echo session_echo
          "A" "B" "hi" 2 "k1" "k2" 10)[j]? =
        some (Record.turn j (if j % 2 = 0 then "A" else "B") msg)) :=
  ⟨by decide, by decide,
   run_negotiation_alternation clock_lin session_echo session_echo "A" "B" "hi" 2
     "k1" "k2" 10 (by decide) (by decide)⟩

/-- Witness for C10: the theorem applied to the record at position 1 of the
same echoing run. -/
theorem run_negotiation_turn_index_position_witness :
    ((run_negotiation clock_lin session_echo session_echo "A" "B" "hi" 2
        "k1" "k2" 10)[1]? = some (Record.turn 1 "B" "ack:ack:hi")) ∧ 1 = 1 :=
  ⟨by decide,
   run_negotiation_turn_index_position clock_lin session_echo session_echo "A" "B" "hi" 2
     "k1" "k2" 10 1 1 "B" "ack:ack:hi" (by decide)⟩

/-- Witness for C4: the theorem applied to a run whose second call (the
first call on session 2) raises. -/
theorem run_negotiation_fail_fast_witness :
    (((run_negotiation_full clock_lin session_echo session_fail
        "A" "B" "hi" 5 10).2.1.filter (fun ev => ev.isCall))[1]? =
      some (Event.call 2 "ack:hi" (SendResult.err "boom"))) ∧
    run_negotiation clock_lin session_echo session_fail "A" "B" "hi" 5 "k1" "k2" 10 =
      (run_negotiation_full clock_lin session_echo session_fail "A" "B" "hi" 5 10).1 ++
        [Record.error "boom"] :=
  ⟨by decide,
   (run_negotiation_fail_fast clock_lin session_echo session_fail "A" "B" "hi" 5
     "k1" "k2" 10 1 2 "ack:hi" "boom" (by decide)).2.2.2⟩

/-- Witness for C6: the theorem applied to duration 0 on the linear clock. -/
theorem run_negotiation_nonpositive_duration_witness :
    ((0 : Int) ≤ 0) ∧ (∀ n, clock_lin 0 ≤ clock_lin n) ∧
    run_negotiation clock_lin session_echo session_echo "A" "B" "hi" 0 "k1" "k2" 10 =
      [Record.turn 0 "A" "ack:hi"] :=
  ⟨by decide, fun n => by simp [clock_lin], by
    rw [run_negotiation_nonpositive_duration clock_lin session_echo session_echo
      "A" "B" "hi" 0 "k1" "k2" 10 (by decide) (fun n => by simp [clock_lin])]
    decide⟩

/-- Witness for C7: part (a) of the theorem applied to the speaker-2 call of
the echoing run (the call at position 2 of the trace). -/
theorem run_negotiation_deadline_respect_witness :
    ((0 : Int) < 2) ∧
    (∃ v, (run_negotiation_full clock_lin session_echo session_echo
        "A" "B" "hi" 2 10).2.1[1]? = some (Event.check v) ∧ v - clock_lin 0 < 2) :=
  ⟨by decide,
   (run_negotiation_deadline_respect clock_lin session_echo session_echo "A" "B" "hi" 2 10
     (by decide)).1 1 2 "ack:hi" (SendResult.ok "ack:ack:hi") (by decide)⟩

/-- Witness for the amended C5: the amended theorem applied to a configured
key and a summarizer answering "SUMMARY". -/
theorem summarize_error_only_amended_witness :
    api_key_missing (some "key") = false ∧
    (conversation_log [Record.error "boom"] = "" ∧
     get_negotiation_summary (fun _ => SendResult.ok "SUMMARY") (some "key")
        [Record.error "boom"] "topic" = ("SUMMARY", [summary_prompt "topic" ""])) :=
  ⟨rfl, summarize_error_only_amended (fun _ => SendResult.ok "SUMMARY") (some "key")
    "boom" "topic" rfl⟩
